import Mathlib

/-!
Shallow embedding of the taskn utility (src/taskn/note.py and
src/taskn/admin.py): the filesystem note store, the external task store,
and the list, view, edit, archive and alias workflows, together with
proofs of the specification claims about them.
-/

namespace Taskn

/-- A filesystem path, modelled as its character sequence. -/
abbrev Path := List Char

/-- A directory entry: a regular file with text content, or a symbolic link. -/
inductive Entry where
  | file (content : String)
  | symlink (target : Path)
deriving DecidableEq

/-- A flat filesystem: an association list from full paths to entries. -/
abbrev FS := List (Path × Entry)

/-- Look up the entry stored at a path. -/
def FS.lookup : FS → Path → Option Entry
  | [], _ => none
  | (q, e) :: fs, p => if q = p then some e else FS.lookup fs p

/-- Remove every entry at the given path. -/
def FS.removeAll (p : Path) (fs : FS) : FS :=
  fs.filter (fun pe => decide (pe.1 ≠ p))

/-- The keys (paths) of a filesystem. -/
def FS.keys (fs : FS) : List Path := fs.map Prod.fst

/-- Paths are unique, as on a real filesystem. -/
def NodupKeys (fs : FS) : Prop := fs.keys.Nodup

/-- Whether the entry is a regular file. -/
def entryIsFile : Entry → Bool
  | .file _ => true
  | .symlink _ => false

/-- Whether the entry is a symbolic link. -/
def entryIsSymlink : Entry → Bool
  | .file _ => false
  | .symlink _ => true

/-- os.path.exists: true for a regular file, or for a symlink whose target is
a regular file (one level of indirection; the program only links to files).
A dangling symlink does not exist for this test, just as for os.path.exists. -/
def pathExists (fs : FS) (p : Path) : Bool :=
  match FS.lookup fs p with
  | some (.file _) => true
  | some (.symlink t) =>
    match FS.lookup fs t with
    | some (.file _) => true
    | _ => false
  | none => false

/-- Whether a regular file sits at the path. -/
def isFileAt (fs : FS) (p : Path) : Bool :=
  match FS.lookup fs p with
  | some (.file _) => true
  | _ => false

/-- os.path.islink. -/
def isLinkAt (fs : FS) (p : Path) : Bool :=
  match FS.lookup fs p with
  | some (.symlink _) => true
  | _ => false

/-- Read a file as open().read() would, following one symlink level; none
means the open raises FileNotFoundError. -/
def fsRead (fs : FS) (p : Path) : Option String :=
  match FS.lookup fs p with
  | some (.file c) => some c
  | some (.symlink t) =>
    match FS.lookup fs t with
    | some (.file c) => some c
    | _ => none
  | none => none

/-- os.path.join of a directory and a relative name. -/
def pjoin (d : Path) (n : Path) : Path := d ++ '/' :: n

/-- os.path.split(p)[-1]: the part after the last path separator. -/
def basenameL (p : Path) : Path :=
  (p.reverse.takeWhile (fun c => decide (c ≠ '/'))).reverse

/-- os.path.splitext(f)[0] (CPython rule: split at the last dot, unless every
character before that dot is itself a dot). -/
def stemOf (f : Path) : Path :=
  match f.reverse.dropWhile (fun c => decide (c ≠ '.')) with
  | [] => f
  | _ :: rest =>
    if rest.reverse.all (fun c => decide (c = '.')) then f else rest.reverse

/-- A task record held by the External Task Store (spec section 3). -/
structure Task where
  id : Option Int
  uuid : String
  description : String
  status : String
  annotations : List String
deriving DecidableEq

/-- Modelled from the spec: the External Task Store itself (the third-party
taskw client library) is not part of this repository; it holds task records
and can mint a record for a newly added description (add-task). -/
structure TaskStore where
  tasks : List Task
  freshTask : String → Task

/-- Modelled from the spec: get-task(id) returns the record carrying that
display id, or fails when no task has it. -/
def getTaskById (store : TaskStore) (n : Int) : Option Task :=
  store.tasks.find? (fun t => t.id == some n)

/-- Modelled from the spec: get-task(uuid) returns (id-or-none, record), or
fails when the uuid is unknown. -/
def getTaskByUuid (store : TaskStore) (u : String) : Option (Option Int × Task) :=
  (store.tasks.find? (fun t => t.uuid == u)).map (fun t => (t.id, t))

/-- The Python exceptions the embedded operations can raise. -/
inductive PyErr where
  | fileNotFound       -- FileNotFoundError from open()
  | osErrorInvalid     -- OSError (EINVAL) from os.readlink on a non-symlink
  | fileExists         -- FileExistsError from os.symlink
  | taskLookupFailed   -- the task store reports failure for the lookup
  | editorFailed       -- CalledProcessError from subprocess.check_call
deriving DecidableEq

deriving instance DecidableEq for Except

/-- Output format (the argparse choices note, yaml, json). -/
inductive Fmt where
  | note | yaml | json
deriving DecidableEq

/-- What view_task prints: the raw note text, or the task record together
with the added field holding the note text. -/
inductive ViewOut where
  | noteText (s : String)
  | record (t : Task) (noteBody : String) (fmt : Fmt)
deriving DecidableEq

/-- note.py view_task: resolve the task by numeric id, read its note file,
and print either the raw note text or the record with the added field
(newline-prefixed for yaml, verbatim for json). Opening a missing note file
raises FileNotFoundError. -/
def view_task (store : TaskStore) (task_id : Int) (fmt : Fmt) (dir ext : Path)
    (fs : FS) : Except PyErr ViewOut :=
  match getTaskById store task_id with
  | none => .error .taskLookupFailed
  | some data =>
    match fsRead fs (pjoin dir (data.uuid.data ++ '.' :: ext)) with
    | none => .error .fileNotFound
    | some body =>
      match fmt with
      | .note => .ok (.noteText body)
      | .yaml => .ok (.record data ("\n" ++ body) .yaml)
      | .json => .ok (.record data body .json)

/-- A listing record (spec section 3), as built by render_list_item. -/
structure ListingRecord where
  task : String
  note : Path
  status : String
  id : Option Int
deriving DecidableEq

/-- The enumeration criterion of expand_tree on one path: it lies under the
notes directory and its name ends with the extension. -/
def critB (dir ext p : Path) : Bool :=
  (dir ++ ['/']).isPrefixOf p && ext.isSuffixOf p

/-- Modelled from the spec: utils.expand_tree (taskn/utils.py is not under
src/) recursively collects all note files under the directory whose names
match the extension. -/
def expand_tree (fs : FS) (dir ext : Path) : List Path :=
  (fs.filter (fun pe => entryIsFile pe.2 && critB dir ext pe.1)).map Prod.fst

/-- note.py render_list_item: extract the uuid from the filename stem,
resolve it in the store, and keep the record when the status filter allows
it. An unknown uuid makes the item itself fail (the field access on the
missing record raises); the failure is isolated by the worker pool. -/
def render_list_item (store : TaskStore) (query : Option String) (note : Path) :
    Except PyErr (Option ListingRecord) :=
  match getTaskByUuid store (String.mk (stemOf (basenameL note))) with
  | none => .error .taskLookupFailed
  | some pr =>
    if query = none ∨ query = some pr.2.status then
      .ok (some ⟨pr.2.description, note, pr.2.status, pr.1⟩)
    else
      .ok none

/-- Modelled from the spec: utils.worker_pool (taskn/utils.py is not under
src/) applies the per-item function across the collection, collecting the
produced records; a per-item failure is isolated, so the failing item is
skipped and the rest of the enumeration proceeds. The sequential order here
is one admissible completion order; the contract only promises set-equality. -/
def worker_pool {α β : Type} (items : List α) (f : α → Except PyErr (Option β)) :
    List β :=
  items.filterMap (fun a =>
    match f a with
    | .ok ob => ob
    | .error _ => none)

/-- note.py list_tasks: enumerate the note files and enrich each with its
owning task. -/
def list_tasks (store : TaskStore) (query : Option String) (fs : FS)
    (dir ext : Path) : List ListingRecord :=
  worker_pool (expand_tree fs dir ext) (render_list_item store query)

/-- Result of get_or_make_task; the fatal constructors are process exits with
a diagnostic and exit code 1. -/
inductive GetTaskResult where
  | fatalUnspecified                       -- cannot add a note to an unspecified task
  | fatalNoId (tok : String)               -- no task with id ...
  | existing (tid : Option Int) (t : Task)
  | created (desc : String) (t : Task)
deriving DecidableEq

/-- Python whitespace for str.split() and int(), ASCII part. -/
def isPyWS (c : Char) : Bool :=
  c = ' ' ∨ c = '\t' ∨ c = '\n' ∨ c = '\r' ∨ c = '\x0b' ∨ c = '\x0c'

/-- Numeric value of an ASCII digit. -/
def charDigitVal (c : Char) : Nat := c.toNat - 48

/-- Digits with single underscores allowed between digit groups, as Python
int() accepts. -/
def udigitsAux : List Char → Nat → Option Nat
  | [], acc => some acc
  | '_' :: c :: rest, acc =>
    if c.isDigit then udigitsAux rest (acc * 10 + charDigitVal c) else none
  | ['_'], _ => none
  | c :: rest, acc =>
    if c.isDigit then udigitsAux rest (acc * 10 + charDigitVal c) else none

/-- A nonempty digit sequence (underscore groups allowed after the first
digit). -/
def pyDigits : List Char → Option Nat
  | [] => none
  | c :: rest => if c.isDigit then udigitsAux rest (charDigitVal c) else none

/-- Python int(str) on a task token: optional surrounding whitespace, an
optional sign, then decimal digits; anything else raises ValueError,
modelled as none. -/
def pyParseInt (s : String) : Option Int :=
  let l := ((s.data.dropWhile isPyWS).reverse.dropWhile isPyWS).reverse
  match l with
  | '+' :: rest => (pyDigits rest).map (fun n => (n : Int))
  | '-' :: rest => (pyDigits rest).map (fun n => -(n : Int))
  | _ => (pyDigits l).map (fun n => (n : Int))

/-- note.py get_or_make_task: an empty reference is fatal; a single token is
parsed as a numeric task id and looked up, where a parse failure or an
unknown id takes the fatal no-task-with-id path (taskw signals the failed
lookup with the ValueError the code catches); two or more tokens create a
new task from the space-joined description and return it. -/
def get_or_make_task (store : TaskStore) (task : List String) : GetTaskResult :=
  match task with
  | [] => .fatalUnspecified
  | [tok] =>
    match pyParseInt tok with
    | none => .fatalNoId tok
    | some n =>
      match getTaskById store n with
      | none => .fatalNoId tok
      | some t => .existing t.id t
  | toks =>
    let desc := String.intercalate " " toks
    .created desc (store.freshTask desc)

/-- Whether p is a prefix of s, on the character sequences. -/
def strIsPrefix (p s : String) : Bool := p.data.isPrefixOf s.data

/-- Modelled from the spec: remove-annotation(record, tag-prefix) drops every
annotation carrying the tag (task_denotate of the external store client). -/
def task_denotate (t : Task) (tag : String) : Task :=
  { t with annotations := t.annotations.filter (fun a => !(strIsPrefix tag a)) }

/-- Modelled from the spec: annotate-task(record, text) appends an
annotation (task_annotate of the external store client). -/
def task_annotate (t : Task) (text : String) : Task :=
  { t with annotations := t.annotations ++ [text] }

/-- First line of the content, keeping its newline, as f.readline() reads. -/
def readlineAux : List Char → List Char
  | [] => []
  | c :: cs => if c = '\n' then ['\n'] else c :: readlineAux cs

/-- f.readline() on a whole content string. -/
def pyReadline (s : String) : String := String.mk (readlineAux s.data)

/-- The fixed recognizable annotation tag of note.py. -/
def tasknoteTag : String := "[tasknote]"

/-- note.py update_annotation: remove any existing [tasknote] annotation,
read the first line of the note file content, and add the combined
annotation. -/
def update_annot (t : Task) (content : String) : Task :=
  task_annotate (task_denotate t tasknoteTag) (tasknoteTag ++ " " ++ pyReadline content)

/-- Result of the edit workflow. -/
inductive EditResult where
  | detached (fs : FS) (t : Task)   -- asyncr mode: editor launched, workflow done
  | synced (fs : FS) (t : Task)     -- sync mode: editor succeeded, annotation updated
  | fatalEditor                     -- editor non-zero exit: diagnostic and exit 1
  | fatalRead                       -- note file unreadable before readline (unreachable here)
deriving DecidableEq

/-- note.py open_editor: create the note file empty when missing, then either
launch the editor detached (asyncr, no wait, output discarded) or run it
synchronously, where a non-zero exit is fatal. editorExit is the editor
process exit status and edited the note file content a synchronous editor
leaves behind. -/
def open_editor (fs : FS) (fn : Path) (asyncr : Bool) (editorExit : Nat)
    (edited : String) : Except PyErr FS :=
  let fs1 := if pathExists fs fn then fs else (fn, Entry.file "") :: fs
  if asyncr then .ok fs1
  else if editorExit = 0 then .ok ((fn, Entry.file edited) :: FS.removeAll fn fs1)
  else .error .editorFailed

/-- note.py edit_note: compute the note path from the task uuid, run the
editor via open_editor, and in synchronous mode update the task annotation
from the note file's first line; detached mode skips the annotation step. -/
def edit_note (t : Task) (dir ext : Path) (asyncr : Bool) (editorExit : Nat)
    (edited : String) (fs : FS) : EditResult :=
  let fn := pjoin dir (t.uuid.data ++ '.' :: ext)
  match open_editor fs fn asyncr editorExit edited with
  | .error _ => .fatalEditor
  | .ok fs1 =>
    if asyncr then .detached fs1 t
    else
      match fsRead fs1 fn with
      | none => .fatalRead
      | some content => .synced fs1 (update_annot t content)

/-- Outcome of one move_if_needed call, mirroring its log branches. -/
inductive MoveOutcome where
  | moved
  | skipSrcMissing   -- debug: source file does not exist
  | skipDstExists    -- warning: destination file exists
  | skipCond         -- debug: cond differs from value
deriving DecidableEq

/-- shutil.move of a file into a directory: the entry is renamed onto the
destination path, replacing whatever entry (such as a dangling symlink)
occupied that name. -/
def FS.move (fs : FS) (src dst : Path) : FS :=
  match FS.lookup fs src with
  | some e => (dst, e) :: FS.removeAll dst (FS.removeAll src fs)
  | none => fs

/-- admin.py move_if_needed: when cond equals value, move src into the dst
directory, unless the source is missing (debug skip) or the destination
directory already holds the basename (warning skip). -/
def move_if_needed (fs : FS) (src dst : Path) (cond value : Option String) :
    FS × MoveOutcome :=
  if cond = value then
    if !(pathExists fs src) then (fs, .skipSrcMissing)
    else if pathExists fs (pjoin dst (basenameL src)) then (fs, .skipDstExists)
    else (FS.move fs src (pjoin dst (basenameL src)), .moved)
  else (fs, .skipCond)

/-- Outcome of one note_symlink call, mirroring its log branches. -/
inductive SymlinkOutcome where
  | existsNoop | warnedNonLink | replaced | created
deriving DecidableEq

/-- os.readlink: the target of a symlink; raises OSError (EINVAL) on an entry
that is not a symbolic link, FileNotFoundError on a missing path. -/
def fsReadlink (fs : FS) (p : Path) : Except PyErr Path :=
  match FS.lookup fs p with
  | some (.symlink t) => .ok t
  | some (.file _) => .error .osErrorInvalid
  | none => .error .fileNotFound

/-- Modelled from the spec: utils.symlink (taskn/utils.py is not under src/)
creates a symbolic link; like os.symlink it fails when the path is occupied. -/
def mkSymlink (fs : FS) (p target : Path) : Except PyErr FS :=
  match FS.lookup fs p with
  | some _ => .error .fileExists
  | none => .ok ((p, Entry.symlink target) :: fs)

/-- admin.py note_symlink: refresh the alias link. Note the code calls
os.readlink before checking os.path.islink, so the readlink raises before
the non-symlink warning branch can ever run. -/
def note_symlink (fs : FS) (name source alias_dir : Path) :
    Except PyErr (FS × SymlinkOutcome) :=
  let alias_path := pjoin alias_dir name
  if pathExists fs alias_path then
    match fsReadlink fs alias_path with
    | .error e => .error e
    | .ok t =>
      if t = source then .ok (fs, .existsNoop)
      else if !(isLinkAt fs alias_path) then .ok (fs, .warnedNonLink)
      else
        match mkSymlink (FS.removeAll alias_path fs) alias_path source with
        | .error e => .error e
        | .ok fs1 => .ok (fs1, .replaced)
  else
    match mkSymlink fs alias_path source with
    | .error e => .error e
    | .ok fs1 => .ok (fs1, .created)

/-- Element of the tiny regex language needed for the bug-citation pattern:
a literal, a greedy dot-star, or the greedy capturing dot-star group. -/
inductive RElem where
  | lit (s : List Char)
  | star
  | gstar

/-- Length of the maximal newline-free prefix (a dot never matches a
newline). -/
def nlFreeLen : List Char → Nat
  | [] => 0
  | c :: cs => if c = '\n' then 0 else nlFreeLen cs + 1

/-- All splits s = pre ++ suf with pre newline-free, longest prefix first:
the backtracking order of a greedy dot-star. -/
def dotSplits (s : List Char) : List (List Char × List Char) :=
  ((List.range (nlFreeLen s + 1)).reverse).map (fun k => (s.take k, s.drop k))

/-- Backtracking matcher for a sequence of literals and greedy dot-stars,
anchored at the start; returns the unconsumed suffix and the text captured
by the single capturing group. -/
def matchSeq : List RElem → List Char → Option (List Char × List Char)
  | [], s => some (s, [])
  | .lit l :: rest, s =>
    if l.isPrefixOf s then matchSeq rest (s.drop l.length) else none
  | .star :: rest, s =>
    (dotSplits s).findSome? (fun pr => matchSeq rest pr.2)
  | .gstar :: rest, s =>
    (dotSplits s).findSome? (fun pr => (matchSeq rest pr.2).map (fun q => (q.1, pr.1)))

/-- re.sub scanning: at each position try an anchored match; on success emit
the group replacement and continue after the match, otherwise keep the
character and advance. The pattern used here starts with a nonempty literal,
so a match always consumes characters and the string-length fuel suffices. -/
def reSubScan (pat : List RElem) : Nat → List Char → List Char
  | 0, s => s
  | _ + 1, [] => []
  | fuel + 1, c :: cs =>
    match matchSeq pat (c :: cs) with
    | some (suf, grp) => grp ++ reSubScan pat fuel suf
    | none => c :: reSubScan pat fuel cs

/-- The bug-tracker citation pattern of admin.py _create_note_symlink. -/
def bugwPat : List RElem :=
  [.lit "(bw)".data, .star, .lit "#".data, .star,
   .lit " - ".data, .gstar, .lit " .. ".data, .star]

/-- bugw_re.sub of the citation by its summary group. -/
def bugw_sub (s : String) : String :=
  String.mk (reSubScan bugwPat s.data.length s.data)

/-- delim_re.sub: each of the delimiter characters becomes a space. -/
def delim_sub (s : String) : String :=
  String.mk (s.data.map (fun c =>
    if c = ':' ∨ c = ';' ∨ c = '-' ∨ c = '.' ∨ c = ',' ∨ c = '_' then ' ' else c))

/-- Python str.split() word accumulation. -/
def pyWordsAux : List Char → List Char → List (List Char)
  | [], acc => if acc.isEmpty then [] else [acc.reverse]
  | c :: cs, acc =>
    if isPyWS c then
      if acc.isEmpty then pyWordsAux cs [] else acc.reverse :: pyWordsAux cs []
    else pyWordsAux cs (c :: acc)

/-- Python str.split(): whitespace-delimited words, empties dropped. -/
def pyWords (s : List Char) : List (List Char) := pyWordsAux s []

/-- admin.py _create_note_symlink's name derivation: strip the bug-tracker
citation to its summary group, turn the delimiters into spaces, hyphen-join
the words, and append the fixed extension txt. -/
def aliasNameOf (desc : String) : String :=
  let n1 := bugw_sub desc
  let n2 := delim_sub n1
  let n3 := String.intercalate "-" ((pyWords n2.data).map String.mk)
  n3 ++ "." ++ "txt"

/-- The same derivation as the spec words it, appending the configured file
extension (the reference definition for comparing code against spec). -/
def aliasNameSpec (desc ext : String) : String :=
  let n1 := bugw_sub desc
  let n2 := delim_sub n1
  let n3 := String.intercalate "-" ((pyWords n2.data).map String.mk)
  n3 ++ "." ++ ext

/-- admin.py _create_note_symlink: derive the alias name from the task
description and refresh the symlink for the record. -/
def create_note_symlink (fs : FS) (r : ListingRecord) (alias_dir : Path) :
    Except PyErr (FS × SymlinkOutcome) :=
  note_symlink fs (aliasNameOf r.task).data r.note alias_dir

/-- The archive subdirectory path used by archive_stale. -/
def archiveDirOf (dir : Path) : Path := pjoin dir ("archive".data)

/-- One pass of archive_stale's worker pool over the listing records,
realised as one sequential schedule, returning the final filesystem and the
per-record move outcomes. -/
def archive_pass (adir : Path) : List ListingRecord → FS → FS × List MoveOutcome
  | [], fs => (fs, [])
  | r :: rs, fs =>
    let step := move_if_needed fs r.note adir (some r.status) (some "completed")
    let rest := archive_pass adir rs step.1
    (rest.1, step.2 :: rest.2)

/-- admin.py archive_stale: move every completed record's note into the
archive subdirectory. -/
def archive_stale (tasks : List ListingRecord) (dir : Path) (fs : FS) :
    FS × List MoveOutcome :=
  archive_pass (archiveDirOf dir) tasks fs

/-- One archive run as admin.main performs it: freshly enumerate the listing
records, then archive the stale ones. -/
def archive_run (store : TaskStore) (dir ext : Path) (fs : FS) :
    FS × List MoveOutcome :=
  archive_stale (list_tasks store none fs dir ext) dir fs

/-- The status of the task owning the note at this path, when it resolves. -/
def statusOfNote (store : TaskStore) (p : Path) : Option String :=
  (getTaskByUuid store (String.mk (stemOf (basenameL p)))).map (fun pr => pr.2.status)

/-- No symbolic link lives under the archive subdirectory; the program never
creates one there, and a symlink at an archive destination name is the one
shape under which re-running the archive could move again (its target can
dangle between runs). -/
def NoArchiveSymlinks (adir : Path) (fs : FS) : Prop :=
  ∀ pe ∈ fs, entryIsSymlink pe.2 = true → (adir ++ ['/']).isPrefixOf pe.1 = false

/-- Every pending record's note path currently holds a regular file entry
when it holds anything. -/
def RecsEntriesFile (fs : FS) (recs : List ListingRecord) : Prop :=
  ∀ r ∈ recs, ∀ e, FS.lookup fs r.note = some e → entryIsFile e = true

/-- Every pending record carries the status its note's uuid resolves to. -/
def RecsStatuses (store : TaskStore) (recs : List ListingRecord) : Prop :=
  ∀ r ∈ recs, statusOfNote store r.note = some r.status

/-- Every completed note file matching the enumeration criterion either still
has a pending record, or already has a regular file at its archive
destination name. With no pending records left this is the archive-pass
postcondition. -/
def Covered (store : TaskStore) (dir ext adir : Path) (fs : FS)
    (recs : List ListingRecord) : Prop :=
  ∀ p, isFileAt fs p = true → critB dir ext p = true →
    statusOfNote store p = some "completed" →
    (∃ r ∈ recs, r.note = p) ∨ isFileAt fs (pjoin adir (basenameL p)) = true

instance (fs : FS) : Decidable (NodupKeys fs) := by
  unfold NodupKeys
  infer_instance

instance (adir : Path) (fs : FS) : Decidable (NoArchiveSymlinks adir fs) := by
  unfold NoArchiveSymlinks
  exact List.decidableBAll _ _

/-- Fixture: the task of the spec's concrete scenarios, pending form. -/
def exTask : Task := ⟨some 7, "abc-123", "groceries", "pending", []⟩

/-- Fixture: the same task, completed (scenario 3). -/
def exTaskDone : Task := ⟨some 7, "abc-123", "groceries", "completed", []⟩

/-- Fixture: records minted by add-task. -/
def exFresh : String → Task := fun d => ⟨some 9, "new-uuid", d, "pending", []⟩

/-- Fixture: store holding the pending task. -/
def exStore : TaskStore := ⟨[exTask], exFresh⟩

/-- Fixture: store holding the completed task. -/
def exStoreDone : TaskStore := ⟨[exTaskDone], exFresh⟩

/-- Fixture: notes directory path. -/
def exDir : Path := "notes".data

/-- Fixture: file extension. -/
def exExt : Path := "txt".data

/-- Fixture: the note path of the scenario task. -/
def exNote : Path := "notes/abc-123.txt".data

/-- Fixture: notes directory containing the one scenario note. -/
def exFS : FS := [(exNote, Entry.file "Buy milk\n")]

/-- Fixture: notes directory with an extra note whose uuid cannot resolve. -/
def exFSGhost : FS :=
  [(exNote, Entry.file "Buy milk\n"), ("notes/ghost.txt".data, Entry.file "x")]

/-- Fixture: notes directory that also holds an archived copy of the note. -/
def exFSBoth : FS :=
  [(exNote, Entry.file "new"), ("notes/archive/abc-123.txt".data, Entry.file "old")]

/-- Fixture: aliases directory path. -/
def exAliasDir : Path := "aliases".data

/-- Fixture: a regular (non-symlink) file already occupies the alias name. -/
def exAliasFS : FS :=
  [("aliases/Buy-milk.txt".data, Entry.file "userdata"),
   (exNote, Entry.file "Buy milk\n")]

/-! ### Basic lemmas about the filesystem model -/

theorem FS.lookup_cons (q : Path) (e : Entry) (fs : FS) (p : Path) :
    FS.lookup ((q, e) :: fs) p = if q = p then some e else FS.lookup fs p := rfl

theorem FS.removeAll_cons_self (a : Path) (e : Entry) (fs : FS) :
    FS.removeAll a ((a, e) :: fs) = FS.removeAll a fs := by
  simp [FS.removeAll, List.filter_cons]

theorem FS.removeAll_cons_ne {a p : Path} (h : a ≠ p) (e : Entry) (fs : FS) :
    FS.removeAll p ((a, e) :: fs) = (a, e) :: FS.removeAll p fs := by
  simp [FS.removeAll, List.filter_cons, h]

theorem FS.lookup_removeAll (p : Path) (fs : FS) (q : Path) :
    FS.lookup (FS.removeAll p fs) q = if q = p then none else FS.lookup fs q := by
  induction fs with
  | nil => simp [FS.removeAll, FS.lookup]
  | cons pe fs ih =>
    obtain ⟨a, e⟩ := pe
    by_cases h1 : a = p
    · subst h1
      rw [FS.removeAll_cons_self, ih]
      by_cases h2 : q = a
      · simp [h2]
      · rw [if_neg h2, if_neg h2, FS.lookup_cons, if_neg (fun h => h2 h.symm)]
    · rw [FS.removeAll_cons_ne h1, FS.lookup_cons, FS.lookup_cons, ih]
      by_cases h2 : a = q
      · subst h2
        rw [if_pos rfl, if_neg (fun h : a = p => h1 h), if_pos rfl]
      · rw [if_neg h2, if_neg h2]

theorem FS.lookup_mem {fs : FS} {p : Path} {e : Entry}
    (h : FS.lookup fs p = some e) : (p, e) ∈ fs := by
  induction fs with
  | nil => simp [FS.lookup] at h
  | cons pe fs ih =>
    obtain ⟨a, e'⟩ := pe
    rw [FS.lookup_cons] at h
    by_cases h1 : a = p
    · subst h1
      rw [if_pos rfl] at h
      injection h with h
      subst h
      exact List.Mem.head _
    · rw [if_neg h1] at h
      exact List.Mem.tail _ (ih h)

theorem FS.mem_map_fst_of_mem {fs : FS} {p : Path} {e : Entry}
    (h : (p, e) ∈ fs) : p ∈ List.map Prod.fst fs :=
  List.mem_map_of_mem Prod.fst h

theorem FS.not_mem_map_fst_of_lookup_none {fs : FS} {p : Path}
    (h : FS.lookup fs p = none) : p ∉ List.map Prod.fst fs := by
  induction fs with
  | nil => simp
  | cons pe fs ih =>
    obtain ⟨a, e⟩ := pe
    rw [FS.lookup_cons] at h
    by_cases h1 : a = p
    · rw [if_pos h1] at h
      cases h
    · rw [if_neg h1] at h
      rw [List.map_cons, List.mem_cons]
      rintro (h2 | h2)
      · exact h1 h2.symm
      · exact (ih h) h2

theorem FS.mem_lookup_of_nodup {fs : FS} (hn : NodupKeys fs) {p : Path} {e : Entry}
    (h : (p, e) ∈ fs) : FS.lookup fs p = some e := by
  induction fs with
  | nil => simp at h
  | cons pe fs ih =>
    obtain ⟨a, e'⟩ := pe
    have hn0 : (a :: List.map Prod.fst fs).Nodup := hn
    rw [List.nodup_cons] at hn0
    rw [FS.lookup_cons]
    rcases List.mem_cons.mp h with heq | hmem
    · cases heq
      rw [if_pos rfl]
    · have h1 : a ≠ p := by
        intro hap
        subst hap
        exact hn0.1 (FS.mem_map_fst_of_mem hmem)
      rw [if_neg h1]
      exact ih hn0.2 hmem

theorem FS.mem_of_mem_removeAll {fs : FS} {p : Path} {pe : Path × Entry}
    (h : pe ∈ FS.removeAll p fs) : pe ∈ fs :=
  List.mem_of_mem_filter h

theorem FS.nodupKeys_removeAll {fs : FS} (hn : NodupKeys fs) (p : Path) :
    NodupKeys (FS.removeAll p fs) :=
  List.Nodup.sublist (List.Sublist.map Prod.fst (List.filter_sublist fs)) hn

theorem isFileAt_iff {fs : FS} {p : Path} :
    isFileAt fs p = true ↔ ∃ c, FS.lookup fs p = some (Entry.file c) := by
  unfold isFileAt
  rcases hl : FS.lookup fs p with _ | e
  · simp
  · cases e <;> simp

theorem pathExists_of_isFileAt {fs : FS} {p : Path}
    (h : isFileAt fs p = true) : pathExists fs p = true := by
  obtain ⟨c, hl⟩ := isFileAt_iff.mp h
  unfold pathExists
  rw [hl]

theorem isFileAt_of_pathExists_arch {adir : Path} {fs : FS} {p : Path}
    (hns : NoArchiveSymlinks adir fs)
    (hpre : (adir ++ ['/']).isPrefixOf p = true)
    (h : pathExists fs p = true) : isFileAt fs p = true := by
  unfold pathExists at h
  rcases hl : FS.lookup fs p with _ | e
  · rw [hl] at h; simp at h
  · rcases e with c | t
    · exact isFileAt_iff.mpr ⟨c, hl⟩
    · exfalso
      have hmem := FS.lookup_mem hl
      have := hns _ hmem (by simp [entryIsSymlink])
      rw [hpre] at this
      simp at this

/-! ### Lemmas about path components -/

theorem takeWhile_append_sat {α : Type} {p : α → Bool} {xs : List α}
    (h : ∀ x ∈ xs, p x = true) (y : α) (ys : List α) (hy : p y = false) :
    (xs ++ y :: ys).takeWhile p = xs := by
  induction xs with
  | nil =>
    rw [List.nil_append, List.takeWhile_cons_of_neg (by simp [hy])]
  | cons x xs ih =>
    have hx := h x (List.mem_cons_self _ _)
    rw [List.cons_append, List.takeWhile_cons_of_pos hx,
      ih (fun a ha => h a (List.mem_cons_of_mem _ ha))]

theorem slash_not_mem_basenameL (p : Path) : '/' ∉ basenameL p := by
  intro h
  unfold basenameL at h
  have h' := List.mem_reverse.mp h
  have := List.mem_takeWhile_imp h'
  simp at this

theorem basenameL_pjoin {b : Path} (hb : '/' ∉ b) (d : Path) :
    basenameL (pjoin d b) = b := by
  unfold basenameL pjoin
  have hrev : (d ++ '/' :: b).reverse = b.reverse ++ '/' :: d.reverse := by
    simp
  rw [hrev]
  rw [takeWhile_append_sat (fun x hx => by
        have : x ∈ b := List.mem_reverse.mp hx
        simp only [decide_eq_true_eq, ne_eq]
        intro hxe
        subst hxe
        exact hb this) '/' d.reverse (by simp)]
  exact List.reverse_reverse b

theorem pjoin_basenameL_idem (adir p : Path) :
    pjoin adir (basenameL (pjoin adir (basenameL p))) = pjoin adir (basenameL p) := by
  rw [basenameL_pjoin (slash_not_mem_basenameL p)]

theorem isPrefixOf_pjoin (adir b : Path) :
    (adir ++ ['/']).isPrefixOf (pjoin adir b) = true := by
  rw [List.isPrefixOf_iff_prefix]
  exact ⟨b, by simp [pjoin]⟩

/-! ### Lemmas about the enumeration -/

theorem mem_expand_tree {fs : FS} {dir ext p : Path} :
    p ∈ expand_tree fs dir ext ↔
      ∃ e, (p, e) ∈ fs ∧ entryIsFile e = true ∧ critB dir ext p = true := by
  unfold expand_tree
  constructor
  · intro h
    obtain ⟨⟨p', e⟩, hmem, rfl⟩ := List.mem_map.mp h
    obtain ⟨hmem', hcond⟩ := List.mem_filter.mp hmem
    simp only [Bool.and_eq_true] at hcond
    exact ⟨e, hmem', hcond.1, hcond.2⟩
  · rintro ⟨e, hmem, hf, hc⟩
    exact List.mem_map.mpr ⟨(p, e), List.mem_filter.mpr ⟨hmem, by simp [hf, hc]⟩, rfl⟩

theorem mem_list_tasks {store : TaskStore} {q : Option String} {fs : FS}
    {dir ext : Path} {r : ListingRecord}
    (h : r ∈ list_tasks store q fs dir ext) :
    r.note ∈ expand_tree fs dir ext ∧
      ∃ pr, getTaskByUuid store (String.mk (stemOf (basenameL r.note))) = some pr ∧
        r = ⟨pr.2.description, r.note, pr.2.status, pr.1⟩ ∧
        (q = none ∨ q = some pr.2.status) := by
  unfold list_tasks worker_pool at h
  obtain ⟨p, hp, hf⟩ := List.mem_filterMap.mp h
  rcases hres : getTaskByUuid store (String.mk (stemOf (basenameL p))) with _ | pr
  · simp [render_list_item, hres] at hf
  · by_cases hq : q = none ∨ q = some pr.2.status
    · simp only [render_list_item, hres, if_pos hq, Option.some.injEq] at hf
      subst hf
      exact ⟨hp, pr, hres, rfl, hq⟩
    · simp [render_list_item, hres, hq] at hf

theorem list_tasks_complete {store : TaskStore} {q : Option String} {fs : FS}
    {dir ext p : Path} {pr : Option Int × Task}
    (hp : p ∈ expand_tree fs dir ext)
    (hres : getTaskByUuid store (String.mk (stemOf (basenameL p))) = some pr)
    (hq : q = none ∨ q = some pr.2.status) :
    (⟨pr.2.description, p, pr.2.status, pr.1⟩ : ListingRecord)
      ∈ list_tasks store q fs dir ext := by
  unfold list_tasks worker_pool
  refine List.mem_filterMap.mpr ⟨p, hp, ?_⟩
  simp only [render_list_item, hres, if_pos hq]

/-! ### Lemmas about annotations and the edit workflow -/

theorem strIsPrefix_two (a b c : String) : strIsPrefix a (a ++ b ++ c) = true := by
  unfold strIsPrefix
  rw [String.data_append, String.data_append, List.isPrefixOf_iff_prefix,
    List.append_assoc]
  exact List.prefix_append _ _

theorem filter_not_self {α : Type} (p : α → Bool) (l : List α) :
    (l.filter (fun a => !p a)).filter p = [] := by
  induction l with
  | nil => rfl
  | cons x l ih =>
    rw [List.filter_cons]
    by_cases hx : p x = true
    · simp [hx, ih]
    · have hx' : p x = false := by simpa using hx
      simp [hx', List.filter_cons, ih]

theorem edit_note_sync_eq (t : Task) (dir ext : Path) (edited : String) (fs : FS) :
    edit_note t dir ext false 0 edited fs
      = EditResult.synced
          ((pjoin dir (t.uuid.data ++ '.' :: ext), Entry.file edited)
            :: FS.removeAll (pjoin dir (t.uuid.data ++ '.' :: ext))
                (if pathExists fs (pjoin dir (t.uuid.data ++ '.' :: ext)) then fs
                 else (pjoin dir (t.uuid.data ++ '.' :: ext), Entry.file "") :: fs))
          (update_annot t edited) := by
  unfold edit_note open_editor fsRead
  simp [FS.lookup_cons]

/-! ### Claim theorems -/

/-- C1 counterexample: the task with id 7 resolves in the store, its note
file is absent, and view_task fails with FileNotFoundError instead of
completing with the note content treated as the empty string. -/
theorem c1_counterexample :
    getTaskById exStore 7 = some exTask ∧
    FS.lookup ([] : FS) (pjoin exDir (exTask.uuid.data ++ '.' :: exExt)) = none ∧
    view_task exStore 7 Fmt.note exDir exExt [] = Except.error PyErr.fileNotFound := by
  decide

/-- C1 (amended): for every numeric task id that resolves in the store,
view_task raises FileNotFoundError when the note file is absent (it does not
treat the content as empty), and when the note file exists it completes,
printing the raw note text or the record with the added note-text field
(newline-prefixed for yaml, verbatim for json). -/
theorem c1_view_missing_note (store : TaskStore) (task_id : Int) (t : Task)
    (fmt : Fmt) (dir ext : Path) (fs : FS)
    (hres : getTaskById store task_id = some t) :
    (FS.lookup fs (pjoin dir (t.uuid.data ++ '.' :: ext)) = none →
      view_task store task_id fmt dir ext fs = Except.error PyErr.fileNotFound) ∧
    (∀ c, FS.lookup fs (pjoin dir (t.uuid.data ++ '.' :: ext)) = some (Entry.file c) →
      view_task store task_id fmt dir ext fs = Except.ok (match fmt with
        | Fmt.note => ViewOut.noteText c
        | Fmt.yaml => ViewOut.record t ("\n" ++ c) Fmt.yaml
        | Fmt.json => ViewOut.record t c Fmt.json)) := by
  constructor
  · intro hmiss
    simp only [view_task, hres, fsRead, hmiss]
  · intro c hc
    cases fmt <;> simp only [view_task, hres, fsRead, hc]

/-- Witness for C1's amended theorem at the concrete scenario store. -/
theorem c1_view_missing_note_witness :
    view_task exStore 7 Fmt.note exDir exExt [] = Except.error PyErr.fileNotFound ∧
    view_task exStore 7 Fmt.json exDir exExt exFS
      = Except.ok (ViewOut.record exTask "Buy milk\n" Fmt.json) := by
  constructor
  · exact (c1_view_missing_note exStore 7 exTask Fmt.note exDir exExt []
      (by decide)).1 (by decide)
  · exact (c1_view_missing_note exStore 7 exTask Fmt.json exDir exExt exFS
      (by decide)).2 "Buy milk\n" (by decide)

/-- C2: enumeration isolates per-item resolution failures: a note file whose
uuid does not resolve contributes no record, and every note file whose uuid
does resolve (and passes the status filter) still contributes its record. -/
theorem c2_enumeration_isolation (store : TaskStore) (fs : FS) (dir ext : Path)
    (q : Option String) :
    (∀ bad : Path, getTaskByUuid store (String.mk (stemOf (basenameL bad))) = none →
      ∀ r ∈ list_tasks store q fs dir ext, r.note ≠ bad) ∧
    (∀ p ∈ expand_tree fs dir ext, ∀ pr,
      getTaskByUuid store (String.mk (stemOf (basenameL p))) = some pr →
      (q = none ∨ q = some pr.2.status) →
      (⟨pr.2.description, p, pr.2.status, pr.1⟩ : ListingRecord)
        ∈ list_tasks store q fs dir ext) := by
  constructor
  · intro bad hbad r hr heq
    obtain ⟨-, pr, hres, -⟩ := mem_list_tasks hr
    rw [heq] at hres
    rw [hbad] at hres
    cases hres
  · intro p hp pr hres hq
    exact list_tasks_complete hp hres hq

/-- Witness for C2 at a directory holding one resolvable and one
unresolvable note. -/
theorem c2_enumeration_isolation_witness :
    (⟨"groceries", exNote, "pending", some 7⟩ : ListingRecord)
      ∈ list_tasks exStore none exFSGhost exDir exExt ∧
    (⟨"groceries", exNote, "pending", some 7⟩ : ListingRecord).note
      ≠ "notes/ghost.txt".data := by
  constructor
  · exact (c2_enumeration_isolation exStore exFSGhost exDir exExt none).2 exNote
      (by decide) (some 7, exTask) (by decide) (Or.inl rfl)
  · exact (c2_enumeration_isolation exStore exFSGhost exDir exExt none).1
      ("notes/ghost.txt".data) (by decide)
      ⟨"groceries", exNote, "pending", some 7⟩
      ((c2_enumeration_isolation exStore exFSGhost exDir exExt none).2 exNote
        (by decide) (some 7, exTask) (by decide) (Or.inl rfl))

/-- C3: evaluation of the code at the failing input: a regular, non-symlink
file occupies the alias path, and note_symlink raises OSError out of
os.readlink instead of warning and leaving the entry alone (the islink
warning branch sits after the readlink call and is unreachable). -/
theorem c3_nonsymlink_alias_raises :
    FS.lookup exAliasFS ("aliases/Buy-milk.txt".data) = some (Entry.file "userdata") ∧
    isLinkAt exAliasFS ("aliases/Buy-milk.txt".data) = false ∧
    note_symlink exAliasFS ("Buy-milk.txt".data) exNote exAliasDir
      = Except.error PyErr.osErrorInvalid := by
  decide

/-- C4: with cond equal to value, the archival move skips (source missing)
with a debug note, never overwrites an existing destination (skips with a
warning), moves exactly when the source exists and the destination basename
does not, and the destination entry is untouched whenever it already exists. -/
theorem c4_move_if_needed_safe (fs : FS) (src dst : Path) (v : Option String) :
    (pathExists fs src = false →
      move_if_needed fs src dst v v = (fs, MoveOutcome.skipSrcMissing)) ∧
    (pathExists fs src = true →
      pathExists fs (pjoin dst (basenameL src)) = true →
      move_if_needed fs src dst v v = (fs, MoveOutcome.skipDstExists)) ∧
    ((move_if_needed fs src dst v v).2 = MoveOutcome.moved ↔
      pathExists fs src = true ∧ pathExists fs (pjoin dst (basenameL src)) = false) ∧
    (pathExists fs (pjoin dst (basenameL src)) = true →
      FS.lookup (move_if_needed fs src dst v v).1 (pjoin dst (basenameL src))
        = FS.lookup fs (pjoin dst (basenameL src))) := by
  refine ⟨?_, ?_, ?_, ?_⟩
  · intro h
    simp [move_if_needed, h]
  · intro h1 h2
    simp [move_if_needed, h1, h2]
  · constructor
    · intro h
      by_cases h1 : pathExists fs src = true
      · by_cases h2 : pathExists fs (pjoin dst (basenameL src)) = true
        · simp [move_if_needed, h1, h2] at h
        · exact ⟨h1, by simpa using h2⟩
      · have h1' : pathExists fs src = false := by simpa using h1
        simp [move_if_needed, h1'] at h
    · rintro ⟨h1, h2⟩
      simp [move_if_needed, h1, h2]
  · intro h2
    by_cases h1 : pathExists fs src = true
    · simp [move_if_needed, h1, h2]
    · have h1' : pathExists fs src = false := by simpa using h1
      simp [move_if_needed, h1']

/-- Witness for C4: a missing source is skipped, and an existing destination
blocks the move. -/
theorem c4_move_if_needed_safe_witness :
    move_if_needed exFS ("notes/none.txt".data) (archiveDirOf exDir)
      (some "completed") (some "completed") = (exFS, MoveOutcome.skipSrcMissing) ∧
    move_if_needed exFSBoth exNote (archiveDirOf exDir)
      (some "completed") (some "completed") = (exFSBoth, MoveOutcome.skipDstExists) := by
  constructor
  · exact (c4_move_if_needed_safe exFS ("notes/none.txt".data) (archiveDirOf exDir)
      (some "completed")).1 (by decide)
  · exact (c4_move_if_needed_safe exFSBoth exNote (archiveDirOf exDir)
      (some "completed")).2.1 (by decide) (by decide)

/-- C6 counterexample: for the scenario description, the code derives
Buy-milk.txt while the spec's derivation with the configured extension md
derives Buy-milk.md: the code appends the fixed extension txt, not the
configured one. -/
theorem c6_counterexample :
    aliasNameOf "(bw).#42 - Buy milk .. details" = "Buy-milk.txt" ∧
    aliasNameSpec "(bw).#42 - Buy milk .. details" "md" = "Buy-milk.md" ∧
    aliasNameOf "(bw).#42 - Buy milk .. details"
      ≠ aliasNameSpec "(bw).#42 - Buy milk .. details" "md" := by
  refine ⟨by decide, by decide, by decide⟩

/-- C6 (amended): the alias name is derived by stripping the bug-citation to
its summary, spacing the delimiters, hyphen-joining and appending the fixed
extension txt (the configured extension is not consulted); in particular the
scenario description derives Buy-milk.txt. -/
theorem c6_alias_name_fixed_ext :
    (∀ desc, aliasNameOf desc = aliasNameSpec desc "txt") ∧
    aliasNameOf "(bw).#42 - Buy milk .. details" = "Buy-milk.txt" :=
  ⟨fun _ => rfl, by decide⟩

/-- C7: a detached (asyncr) edit launches the editor and completes with the
task record, annotations included, exactly as it was: the annotation-update
step is skipped entirely. -/
theorem c7_detached_keeps_task (t : Task) (dir ext : Path) (editorExit : Nat)
    (edited : String) (fs : FS) :
    ∃ fs1, edit_note t dir ext true editorExit edited fs
      = EditResult.detached fs1 t :=
  ⟨_, rfl⟩

/-- C8: a synchronous edit whose editor exits 0 leaves the task with exactly
one [tasknote]-tagged annotation, combining the tag with the note file's
first line, every previously tagged annotation removed and the untagged ones
untouched. -/
theorem c8_sync_annot (t : Task) (dir ext : Path) (edited : String) (fs : FS) :
    ∃ fs1 t1,
      edit_note t dir ext false 0 edited fs = EditResult.synced fs1 t1 ∧
      List.countP (fun a => strIsPrefix tasknoteTag a) t1.annotations = 1 ∧
      List.filter (fun a => strIsPrefix tasknoteTag a) t1.annotations
        = [tasknoteTag ++ " " ++ pyReadline edited] ∧
      List.filter (fun a => !(strIsPrefix tasknoteTag a)) t1.annotations
        = List.filter (fun a => !(strIsPrefix tasknoteTag a)) t.annotations := by
  have hann : (update_annot t edited).annotations
      = List.filter (fun a => !(strIsPrefix tasknoteTag a)) t.annotations
        ++ [tasknoteTag ++ " " ++ pyReadline edited] := rfl
  have hfil : List.filter (fun a => strIsPrefix tasknoteTag a)
      (update_annot t edited).annotations
      = [tasknoteTag ++ " " ++ pyReadline edited] := by
    rw [hann, List.filter_append, filter_not_self]
    simp [strIsPrefix_two]
  refine ⟨_, update_annot t edited, edit_note_sync_eq t dir ext edited fs,
    ?_, hfil, ?_⟩
  · rw [List.countP_eq_length_filter, hfil]
    rfl
  · rw [hann, List.filter_append]
    have hone : List.filter (fun a => !(strIsPrefix tasknoteTag a))
        [tasknoteTag ++ " " ++ pyReadline edited] = [] := by
      simp [strIsPrefix_two]
    rw [hone, List.append_nil, List.filter_filter]
    simp

/-- C9: an empty task reference exits fatally with a diagnostic, and a
single numeric reference whose id does not resolve in the store exits
fatally with the no-task-with-id diagnostic. -/
theorem c9_fatal_refs (store : TaskStore) :
    get_or_make_task store [] = GetTaskResult.fatalUnspecified ∧
    ∀ tok n, pyParseInt tok = some n → getTaskById store n = none →
      get_or_make_task store [tok] = GetTaskResult.fatalNoId tok := by
  refine ⟨rfl, ?_⟩
  intro tok n h1 h2
  simp only [get_or_make_task, h1, h2]

/-- Witness for C9: the empty reference, and the unresolvable id 99. -/
theorem c9_fatal_refs_witness :
    get_or_make_task exStore [] = GetTaskResult.fatalUnspecified ∧
    get_or_make_task exStore ["99"] = GetTaskResult.fatalNoId "99" := by
  exact ⟨(c9_fatal_refs exStore).1,
    (c9_fatal_refs exStore).2 "99" 99 (by decide) (by decide)⟩

/-- C10: a single non-numeric token takes the no-task-with-id fatal path,
and a task is only ever created from a reference of at least two tokens, so
a one-word description cannot create a task. -/
theorem c10_one_word_never_creates (store : TaskStore) :
    (∀ tok, pyParseInt tok = none →
      get_or_make_task store [tok] = GetTaskResult.fatalNoId tok) ∧
    (∀ (ref : List String) (desc : String) (t : Task),
      get_or_make_task store ref = GetTaskResult.created desc t →
      2 ≤ ref.length) := by
  constructor
  · intro tok h
    simp only [get_or_make_task, h]
  · intro ref desc t h
    obtain - | ⟨tok, - | ⟨b, rest⟩⟩ := ref
    · simp [get_or_make_task] at h
    · rcases h1 : pyParseInt tok with - | n
      · simp [get_or_make_task, h1] at h
      · rcases h2 : getTaskById store n with - | tk
        · simp [get_or_make_task, h1, h2] at h
        · simp [get_or_make_task, h1, h2] at h
    · simp only [List.length_cons]
      omega

/-- Witness for C10: one non-numeric word is fatal; two words create. -/
theorem c10_one_word_never_creates_witness :
    get_or_make_task exStore ["hello"] = GetTaskResult.fatalNoId "hello" ∧
    2 ≤ (["buy", "milk"] : List String).length := by
  constructor
  · exact (c10_one_word_never_creates exStore).1 "hello" (by decide)
  · exact (c10_one_word_never_creates exStore).2 ["buy", "milk"] _ _ rfl

/-! ### The archive pass invariant (claim C5) -/

theorem move_step_preserves (store : TaskStore) (dir ext adir : Path)
    (fs : FS) (r : ListingRecord) (rs : List ListingRecord)
    (h1 : NodupKeys fs) (h2 : NoArchiveSymlinks adir fs)
    (h3 : RecsEntriesFile fs (r :: rs)) (h4 : RecsStatuses store (r :: rs))
    (h5 : Covered store dir ext adir fs (r :: rs)) :
    NodupKeys (move_if_needed fs r.note adir (some r.status) (some "completed")).1 ∧
    NoArchiveSymlinks adir
      (move_if_needed fs r.note adir (some r.status) (some "completed")).1 ∧
    RecsEntriesFile
      (move_if_needed fs r.note adir (some r.status) (some "completed")).1 rs ∧
    RecsStatuses store rs ∧
    Covered store dir ext adir
      (move_if_needed fs r.note adir (some r.status) (some "completed")).1 rs := by
  have h3' : RecsEntriesFile fs rs :=
    fun r' hr' => h3 r' (List.mem_cons_of_mem _ hr')
  have h4' : RecsStatuses store rs :=
    fun r' hr' => h4 r' (List.mem_cons_of_mem _ hr')
  by_cases hst : r.status = "completed"
  · by_cases hsrc : pathExists fs r.note = true
    · by_cases hdst : pathExists fs (pjoin adir (basenameL r.note)) = true
      · -- destination already exists: skip with a warning
        have hmv : move_if_needed fs r.note adir (some r.status) (some "completed")
            = (fs, MoveOutcome.skipDstExists) := by
          simp [move_if_needed, hst, hsrc, hdst]
        rw [hmv]
        refine ⟨h1, h2, h3', h4', ?_⟩
        show Covered store dir ext adir fs rs
        intro p hf hc hs
        rcases h5 p hf hc hs with ⟨r', hr', hnote⟩ | hright
        · rcases List.mem_cons.mp hr' with heq | hr''
          · right
            rw [heq] at hnote
            rw [← hnote]
            exact isFileAt_of_pathExists_arch h2 (isPrefixOf_pjoin adir _) hdst
          · exact Or.inl ⟨r', hr'', hnote⟩
        · exact Or.inr hright
      · -- the move happens
        have hdst' : pathExists fs (pjoin adir (basenameL r.note)) = false := by
          simpa using hdst
        obtain ⟨c, hlook⟩ : ∃ c, FS.lookup fs r.note = some (Entry.file c) := by
          rcases hl : FS.lookup fs r.note with - | e
          · exfalso
            unfold pathExists at hsrc
            rw [hl] at hsrc
            exact Bool.noConfusion hsrc
          · have hfe := h3 r (List.mem_cons_self _ _) e hl
            cases e with
            | file c => exact ⟨c, rfl⟩
            | symlink t0 => simp [entryIsFile] at hfe
        have hmv : move_if_needed fs r.note adir (some r.status) (some "completed")
            = ((pjoin adir (basenameL r.note), Entry.file c)
                :: FS.removeAll (pjoin adir (basenameL r.note)) (FS.removeAll r.note fs),
               MoveOutcome.moved) := by
          simp [move_if_needed, hst, hsrc, hdst', FS.move, hlook]
        rw [hmv]
        set dst := pjoin adir (basenameL r.note) with hdstdef
        set fs' := (dst, Entry.file c) :: FS.removeAll dst (FS.removeAll r.note fs)
          with hfs2def
        have hne : r.note ≠ dst := by
          intro he
          rw [← he] at hdst'
          rw [hsrc] at hdst'
          exact Bool.noConfusion hdst'
        have hld : FS.lookup fs' dst = some (Entry.file c) := by
          rw [hfs2def, FS.lookup_cons, if_pos rfl]
        have hls : FS.lookup fs' r.note = none := by
          rw [hfs2def, FS.lookup_cons, if_neg (fun h => hne h.symm),
            FS.lookup_removeAll, if_neg hne, FS.lookup_removeAll, if_pos rfl]
        have hlq : ∀ q1, q1 ≠ dst → q1 ≠ r.note → FS.lookup fs' q1 = FS.lookup fs q1 := by
          intro q1 hq1 hq2
          rw [hfs2def, FS.lookup_cons, if_neg (fun h => hq1 h.symm),
            FS.lookup_removeAll, if_neg hq1, FS.lookup_removeAll, if_neg hq2]
        have knodup : NodupKeys fs' := by
          have hsub : NodupKeys (FS.removeAll dst (FS.removeAll r.note fs)) :=
            FS.nodupKeys_removeAll (FS.nodupKeys_removeAll h1 _) _
          have hnotin : dst ∉ List.map Prod.fst (FS.removeAll dst (FS.removeAll r.note fs)) :=
            FS.not_mem_map_fst_of_lookup_none (by rw [FS.lookup_removeAll, if_pos rfl])
          exact List.nodup_cons.mpr ⟨hnotin, hsub⟩
        have knosym : NoArchiveSymlinks adir fs' := by
          intro pe hpe hsym
          rcases List.mem_cons.mp hpe with rfl | hpe'
          · simp [entryIsSymlink] at hsym
          · exact h2 pe (FS.mem_of_mem_removeAll (FS.mem_of_mem_removeAll hpe')) hsym
        have kentries : RecsEntriesFile fs' rs := by
          intro r' hr' e hl
          by_cases hq1 : r'.note = dst
          · rw [hq1, hld] at hl
            injection hl with hl
            rw [← hl]
            rfl
          · by_cases hq2 : r'.note = r.note
            · rw [hq2, hls] at hl
              exact Option.noConfusion hl
            · rw [hlq _ hq1 hq2] at hl
              exact h3' r' hr' e hl
        have kcov : Covered store dir ext adir fs' rs := by
          intro p hf hc hs
          by_cases hpd : p = dst
          · subst hpd
            right
            have hback : pjoin adir (basenameL dst) = dst := by
              rw [hdstdef]
              exact pjoin_basenameL_idem adir r.note
            rw [hback]
            exact isFileAt_iff.mpr ⟨c, hld⟩
          · have hps : p ≠ r.note := by
              intro he
              obtain ⟨c', hc'⟩ := isFileAt_iff.mp hf
              rw [he, hls] at hc'
              exact Option.noConfusion hc'
            have hfp : isFileAt fs p = true := by
              obtain ⟨c', hc'⟩ := isFileAt_iff.mp hf
              rw [hlq p hpd hps] at hc'
              exact isFileAt_iff.mpr ⟨c', hc'⟩
            rcases h5 p hfp hc hs with ⟨r', hr', hnote⟩ | hright
            · rcases List.mem_cons.mp hr' with rfl | hr''
              · exact absurd hnote.symm hps
              · exact Or.inl ⟨r', hr'', hnote⟩
            · right
              by_cases hq1 : pjoin adir (basenameL p) = dst
              · rw [hq1]
                exact isFileAt_iff.mpr ⟨c, hld⟩
              · have hq2 : pjoin adir (basenameL p) ≠ r.note := by
                  intro he
                  apply hne
                  have hb : basenameL r.note = basenameL p := by
                    rw [← he]
                    exact basenameL_pjoin (slash_not_mem_basenameL p) adir
                  rw [hdstdef, hb, he]
                obtain ⟨c', hc'⟩ := isFileAt_iff.mp hright
                refine isFileAt_iff.mpr ⟨c', ?_⟩
                rw [hlq _ hq1 hq2]
                exact hc'
        exact ⟨knodup, knosym, kentries, h4', kcov⟩
    · -- source missing: skip with a debug note
      have hsrc' : pathExists fs r.note = false := by simpa using hsrc
      have hmv : move_if_needed fs r.note adir (some r.status) (some "completed")
          = (fs, MoveOutcome.skipSrcMissing) := by
        simp [move_if_needed, hst, hsrc']
      rw [hmv]
      refine ⟨h1, h2, h3', h4', ?_⟩
      show Covered store dir ext adir fs rs
      intro p hf hc hs
      rcases h5 p hf hc hs with ⟨r', hr', hnote⟩ | hright
      · rcases List.mem_cons.mp hr' with heq | hr''
        · exfalso
          rw [heq] at hnote
          have hpe := pathExists_of_isFileAt hf
          rw [← hnote] at hpe
          rw [hsrc'] at hpe
          exact Bool.noConfusion hpe
        · exact Or.inl ⟨r', hr'', hnote⟩
      · exact Or.inr hright
  · -- status differs from completed: skip
    have hmv : move_if_needed fs r.note adir (some r.status) (some "completed")
        = (fs, MoveOutcome.skipCond) := by
      simp [move_if_needed, hst]
    rw [hmv]
    refine ⟨h1, h2, h3', h4', ?_⟩
    show Covered store dir ext adir fs rs
    intro p hf hc hs
    rcases h5 p hf hc hs with ⟨r', hr', hnote⟩ | hright
    · rcases List.mem_cons.mp hr' with heq | hr''
      · exfalso
        have hstat := h4 r (List.mem_cons_self _ _)
        rw [heq] at hnote
        rw [hnote, hs] at hstat
        injection hstat with hstat
        exact hst hstat.symm
      · exact Or.inl ⟨r', hr'', hnote⟩
    · exact Or.inr hright

theorem archive_pass_post (store : TaskStore) (dir ext adir : Path)
    (recs : List ListingRecord) :
    ∀ fs : FS, NodupKeys fs → NoArchiveSymlinks adir fs →
      RecsEntriesFile fs recs → RecsStatuses store recs →
      Covered store dir ext adir fs recs →
      NodupKeys (archive_pass adir recs fs).1 ∧
      NoArchiveSymlinks adir (archive_pass adir recs fs).1 ∧
      Covered store dir ext adir (archive_pass adir recs fs).1 [] := by
  induction recs with
  | nil =>
    intro fs h1 h2 h3 h4 h5
    refine ⟨h1, h2, ?_⟩
    intro p hf hc hs
    rcases h5 p hf hc hs with ⟨r', hr', -⟩ | hright
    · simp at hr'
    · exact Or.inr hright
  | cons r rs ih =>
    intro fs h1 h2 h3 h4 h5
    have hstep := move_step_preserves store dir ext adir fs r rs h1 h2 h3 h4 h5
    have hrec := ih (move_if_needed fs r.note adir (some r.status) (some "completed")).1
      hstep.1 hstep.2.1 hstep.2.2.1 hstep.2.2.2.1 hstep.2.2.2.2
    exact hrec

theorem archive_init_entries (store : TaskStore) (fs : FS) (dir ext : Path)
    (h1 : NodupKeys fs) :
    RecsEntriesFile fs (list_tasks store none fs dir ext) := by
  intro r hr e hl
  obtain ⟨hexp, -⟩ := mem_list_tasks hr
  obtain ⟨e0, hmem, hfe, -⟩ := mem_expand_tree.mp hexp
  have hl0 := FS.mem_lookup_of_nodup h1 hmem
  rw [hl] at hl0
  injection hl0 with hl0
  rw [hl0]
  exact hfe

theorem archive_init_statuses (store : TaskStore) (fs : FS) (dir ext : Path) :
    RecsStatuses store (list_tasks store none fs dir ext) := by
  intro r hr
  obtain ⟨-, pr, hres, hrec, -⟩ := mem_list_tasks hr
  unfold statusOfNote
  rw [hres]
  have hss : r.status = pr.2.status := by rw [hrec]
  rw [Option.map_some', hss]

theorem archive_init_covered (store : TaskStore) (fs : FS) (dir ext adir : Path) :
    Covered store dir ext adir fs (list_tasks store none fs dir ext) := by
  intro p hf hc hs
  left
  obtain ⟨c, hl⟩ := isFileAt_iff.mp hf
  have hmem : (p, Entry.file c) ∈ fs := FS.lookup_mem hl
  have hexp : p ∈ expand_tree fs dir ext :=
    mem_expand_tree.mpr ⟨Entry.file c, hmem, rfl, hc⟩
  unfold statusOfNote at hs
  rcases hres : getTaskByUuid store (String.mk (stemOf (basenameL p))) with - | pr
  · rw [hres] at hs
    simp at hs
  · rw [hres] at hs
    simp only [Option.map_some', Option.some.injEq] at hs
    exact ⟨⟨pr.2.description, p, pr.2.status, pr.1⟩,
      list_tasks_complete hexp hres (Or.inl rfl), rfl⟩

theorem archive_pass_stationary (adir : Path) (recs : List ListingRecord) (fs : FS)
    (h : ∀ r ∈ recs,
      (move_if_needed fs r.note adir (some r.status) (some "completed")).1 = fs ∧
      (move_if_needed fs r.note adir (some r.status) (some "completed")).2
        ≠ MoveOutcome.moved) :
    (archive_pass adir recs fs).1 = fs ∧
    ∀ o ∈ (archive_pass adir recs fs).2, o ≠ MoveOutcome.moved := by
  induction recs with
  | nil => exact ⟨rfl, by simp [archive_pass]⟩
  | cons r rs ih =>
    obtain ⟨he, hno⟩ := h r (List.mem_cons_self _ _)
    have hrs := ih (fun r' hr' => h r' (List.mem_cons_of_mem _ hr'))
    have hunfold : archive_pass adir (r :: rs) fs
        = ((archive_pass adir rs
              (move_if_needed fs r.note adir (some r.status) (some "completed")).1).1,
           (move_if_needed fs r.note adir (some r.status) (some "completed")).2
             :: (archive_pass adir rs
                  (move_if_needed fs r.note adir (some r.status)
                    (some "completed")).1).2) := rfl
    rw [hunfold, he]
    constructor
    · exact hrs.1
    · intro o ho
      have ho' : o ∈ (move_if_needed fs r.note adir (some r.status)
          (some "completed")).2 :: (archive_pass adir rs fs).2 := ho
      rcases List.mem_cons.mp ho' with heq | ho''
      · rw [heq]
        exact hno
      · exact hrs.2 o ho''

theorem second_run_stationary (store : TaskStore) (dir ext : Path) (fs1 : FS)
    (h1 : NodupKeys fs1)
    (hP : Covered store dir ext (archiveDirOf dir) fs1 [])
    (r : ListingRecord) (hr : r ∈ list_tasks store none fs1 dir ext) :
    (move_if_needed fs1 r.note (archiveDirOf dir) (some r.status)
      (some "completed")).1 = fs1 ∧
    (move_if_needed fs1 r.note (archiveDirOf dir) (some r.status)
      (some "completed")).2 ≠ MoveOutcome.moved := by
  by_cases hst : r.status = "completed"
  · obtain ⟨hexp, pr, hres, hrec, -⟩ := mem_list_tasks hr
    obtain ⟨e0, hmem, hfe, hcrit⟩ := mem_expand_tree.mp hexp
    have hl0 := FS.mem_lookup_of_nodup h1 hmem
    have hfile : isFileAt fs1 r.note = true := by
      cases e0 with
      | file c => exact isFileAt_iff.mpr ⟨c, hl0⟩
      | symlink t0 => simp [entryIsFile] at hfe
    have hsrc := pathExists_of_isFileAt hfile
    have hps : pr.2.status = "completed" := by
      have hsr : pr.2.status = r.status := by rw [hrec]
      rw [hsr]
      exact hst
    have hs : statusOfNote store r.note = some "completed" := by
      unfold statusOfNote
      rw [hres]
      simp [hps]
    rcases hP r.note hfile hcrit hs with ⟨r', hr', -⟩ | hdst
    · simp at hr'
    · have hpd := pathExists_of_isFileAt hdst
      have hmv : move_if_needed fs1 r.note (archiveDirOf dir) (some r.status)
          (some "completed") = (fs1, MoveOutcome.skipDstExists) := by
        simp [move_if_needed, hst, hsrc, hpd]
      rw [hmv]
      exact ⟨rfl, by simp⟩
  · have hmv : move_if_needed fs1 r.note (archiveDirOf dir) (some r.status)
        (some "completed") = (fs1, MoveOutcome.skipCond) := by
      simp [move_if_needed, hst]
    rw [hmv]
    exact ⟨rfl, by simp⟩

/-- C5 counterexample: at the concrete scenario-3 state, the first archive
run moves the note; the freshly re-enumerated second run finds the note
inside the archive subdirectory and skips it because the destination file
already exists, not because the source no longer exists. -/
theorem c5_counterexample :
    (archive_run exStoreDone exDir exExt exFS).2 = [MoveOutcome.moved] ∧
    (archive_run exStoreDone exDir exExt
      (archive_run exStoreDone exDir exExt exFS).1).2
      = [MoveOutcome.skipDstExists] ∧
    MoveOutcome.skipDstExists ≠ MoveOutcome.skipSrcMissing := by
  decide

/-- C5 (amended): archiving is idempotent in effect: on a filesystem with
unique paths and no symlink stored under the archive subdirectory, running
the archive workflow twice over freshly enumerated records performs no file
move and changes nothing on the second run; each note moved by the first run
is re-enumerated inside the archive subdirectory and skipped with the
destination-exists warning rather than a source-missing note. -/
theorem c5_archive_idempotent (store : TaskStore) (dir ext : Path) (fs : FS)
    (h1 : NodupKeys fs) (h2 : NoArchiveSymlinks (archiveDirOf dir) fs) :
    (archive_run store dir ext (archive_run store dir ext fs).1).1
      = (archive_run store dir ext fs).1 ∧
    ∀ o ∈ (archive_run store dir ext (archive_run store dir ext fs).1).2,
      o ≠ MoveOutcome.moved := by
  obtain ⟨k1, k2, kP⟩ := archive_pass_post store dir ext (archiveDirOf dir)
    (list_tasks store none fs dir ext) fs h1 h2
    (archive_init_entries store fs dir ext h1)
    (archive_init_statuses store fs dir ext)
    (archive_init_covered store fs dir ext (archiveDirOf dir))
  exact archive_pass_stationary (archiveDirOf dir)
    (list_tasks store none (archive_run store dir ext fs).1 dir ext)
    (archive_run store dir ext fs).1
    (fun r hr => second_run_stationary store dir ext
      (archive_run store dir ext fs).1 k1 kP r hr)

/-- Witness for C5's amended theorem at the concrete scenario-3 state. -/
theorem c5_archive_idempotent_witness :
    NodupKeys exFS ∧
    NoArchiveSymlinks (archiveDirOf exDir) exFS ∧
    (archive_run exStoreDone exDir exExt
      (archive_run exStoreDone exDir exExt exFS).1).1
      = (archive_run exStoreDone exDir exExt exFS).1 := by
  refine ⟨by decide, by decide, ?_⟩
  exact (c5_archive_idempotent exStoreDone exDir exExt exFS
    (by decide) (by decide)).1

end Taskn
